import Mathlib

/-!
Verification of the adjusted Gromov-Wasserstein solver of `GW_adjusted.py`
(novosparc).  Numpy float matrices are embedded as Mathlib matrices over `ℚ`;
the external entropic subproblem solver (`ot.bregman.sinkhorn`) and the
convergence norm (`np.linalg.norm`) are abstract function parameters of the
drivers; the numpy special values produced when a degenerate normalization
divides by a zero maximum are modelled by the dedicated `NpFloat` type below.
Index types of the form `Fin (n + 1)` record that every matrix in scope is
nonempty, so `min()` and `max()` are total.
-/

/-- Rectangular rational matrix: the embedding of a numpy float array. -/
abbrev Mat (m n : ℕ) : Type := Matrix (Fin m) (Fin n) ℚ

/-- Type of the external entropic subproblem solver `sinkhorn(p, q, M, epsilon)`,
treated as a black box. -/
abbrev Sink (ns nt : ℕ) : Type :=
  (Fin (ns + 1) → ℚ) → (Fin (nt + 1) → ℚ) → Mat (ns + 1) (nt + 1) → ℚ → Mat (ns + 1) (nt + 1)

/-- `A.min()`: the least entry of a nonempty matrix. -/
def matMin {m n : ℕ} (A : Mat (m + 1) (n + 1)) : ℚ :=
  Finset.univ.inf' Finset.univ_nonempty fun ij : Fin (m + 1) × Fin (n + 1) => A ij.1 ij.2

/-- `A.max()`: the greatest entry of a nonempty matrix. -/
def matMax {m n : ℕ} (A : Mat (m + 1) (n + 1)) : ℚ :=
  Finset.univ.sup' Finset.univ_nonempty fun ij : Fin (m + 1) × Fin (n + 1) => A ij.1 ij.2

/-- `np.outer(p, q)`, the independence coupling used to start the drivers. -/
def npOuter {m n : ℕ} (p : Fin m → ℚ) (q : Fin n → ℚ) : Mat m n :=
  Matrix.of fun i j => p i * q j

/-- `tensor_square_loss_mine(C1, C2, T)` (GW_adjusted.py lines 35-86):
with `h1 = h2 = id`, computes `tens = -(C1 @ T) @ C2.T` and then shifts the
whole tensor by its global minimum (`tens -= tens.min()`). -/
def tensor_square_loss_mine {ns nt : ℕ} (C1 : Mat (ns + 1) (ns + 1))
    (C2 : Mat (nt + 1) (nt + 1)) (T : Mat (ns + 1) (nt + 1)) : Mat (ns + 1) (nt + 1) :=
  let tens := -(C1 * T * C2.transpose)
  Matrix.of fun i j => tens i j - matMin tens

/-- `tensor_square_loss_mine_combined(C1, C2, T, cost_mat, alpha_linear)`
(GW_adjusted.py lines 89-142): the nonlinear part `(C1 @ T) @ C2.T`, a linear
part `(cost_mat * T) * nonlinear.max()` (elementwise product, note the raw
`cost_mat` is used), `tens = -nonlinear - alpha_linear * linear`, min-shifted. -/
def tensor_square_loss_mine_combined {ns nt : ℕ} (C1 : Mat (ns + 1) (ns + 1))
    (C2 : Mat (nt + 1) (nt + 1)) (T : Mat (ns + 1) (nt + 1))
    (cost_mat : Mat (ns + 1) (nt + 1)) (alpha_linear : ℚ) : Mat (ns + 1) (nt + 1) :=
  let temp_here_nonlinear := C1 * T * C2.transpose
  let temp_here_linear :=
    Matrix.of fun i j => cost_mat i j * T i j * matMax temp_here_nonlinear
  let tens := Matrix.of fun i j =>
    -temp_here_nonlinear i j - alpha_linear * temp_here_linear i j
  Matrix.of fun i j => tens i j - matMin tens

/-- The additive floor `1e-15` placed inside every logarithm of the KL branch. -/
def eps15 : ℚ := 1 / 10 ^ 15

/-- `tensor_kl_loss_mine(C1, C2, T)` (GW_adjusted.py lines 145-204):
`h2(b) = np.log(b + 1e-15)`, `tens = -(C1 @ T) @ h2(C2).T`, min-shifted.
`np.log` is abstracted as `nplog : ℚ → Option ℚ`, where `none` models a
logarithm that faults on its argument; the result is `none` exactly when some
required logarithm faults.  (The source also defines `f1(a) = a*np.log(a+1e-15)-a`
and `f2`, but neither is applied when building `tens`, so no other logarithm is
taken.) -/
def tensor_kl_loss_mine {ns nt : ℕ} (nplog : ℚ → Option ℚ) (C1 : Mat (ns + 1) (ns + 1))
    (C2 : Mat (nt + 1) (nt + 1)) (T : Mat (ns + 1) (nt + 1)) :
    Option (Mat (ns + 1) (nt + 1)) :=
  if h : ∀ i j, (nplog (C2 i j + eps15)).isSome then
    let logC2 : Mat (nt + 1) (nt + 1) := Matrix.of fun i j => (nplog (C2 i j + eps15)).get (h i j)
    let tens := -(C1 * T * logC2.transpose)
    some (Matrix.of fun i j => tens i j - matMin tens)
  else
    none

/-- `update_square_loss_mine(p, lambdas, T, Cs)` (GW_adjusted.py lines 207-232):
`tmpsum = sum_s lambdas[s] * (T[s].T @ Cs[s] @ T[s])`, `ppt = np.outer(p, p)`,
result `np.divide(tmpsum, ppt)` elementwise.  The `S` spaces may have distinct
sizes `sz s`. -/
def update_square_loss_mine {S N : ℕ} (sz : Fin S → ℕ) (p : Fin N → ℚ)
    (lambdas : Fin S → ℚ) (T : ∀ s, Matrix (Fin (sz s)) (Fin N) ℚ)
    (Cs : ∀ s, Matrix (Fin (sz s)) (Fin (sz s)) ℚ) : Matrix (Fin N) (Fin N) ℚ :=
  let tmpsum : Matrix (Fin N) (Fin N) ℚ :=
    ∑ s, lambdas s • ((T s).transpose * Cs s * T s)
  let ppt : Matrix (Fin N) (Fin N) ℚ := Matrix.of fun i j => p i * p j
  Matrix.of fun i j => tmpsum i j / ppt i j

/-- `update_kl_loss_mine(p, lambdas, T, Cs)` (GW_adjusted.py lines 235-259):
same `tmpsum` and `ppt`, result `np.exp(np.divide(tmpsum, ppt))`; `np.exp` is
abstracted as the elementwise function parameter `npexp`. -/
def update_kl_loss_mine {S N : ℕ} (npexp : ℚ → ℚ) (sz : Fin S → ℕ) (p : Fin N → ℚ)
    (lambdas : Fin S → ℚ) (T : ∀ s, Matrix (Fin (sz s)) (Fin N) ℚ)
    (Cs : ∀ s, Matrix (Fin (sz s)) (Fin (sz s)) ℚ) : Matrix (Fin N) (Fin N) ℚ :=
  let tmpsum : Matrix (Fin N) (Fin N) ℚ :=
    ∑ s, lambdas s • ((T s).transpose * Cs s * T s)
  let ppt : Matrix (Fin N) (Fin N) ℚ := Matrix.of fun i j => p i * p j
  Matrix.of fun i j => npexp (tmpsum i j / ppt i j)

/-- The per-iteration linear blending of the additive driver
(GW_adjusted.py lines 339-340): given the entry-normalized `cost_mat1`
computed once at driver entry, form `cost_mat2 = cost_mat1 * tens.max()` and
return `tens + alpha_linear * cost_mat2`. -/
def adjustedTens {ns nt : ℕ} (cost_mat1 : Mat (ns + 1) (nt + 1)) (alpha_linear : ℚ)
    (tens : Mat (ns + 1) (nt + 1)) : Mat (ns + 1) (nt + 1) :=
  let cost_mat2 := Matrix.of fun i j => cost_mat1 i j * matMax tens
  Matrix.of fun i j => tens i j + alpha_linear * cost_mat2 i j

/-- `cost_mat / cost_mat.max()` over `ℚ` (GW_adjusted.py lines 330, 434, 541).
Field division is total here; the numpy semantics of a zero maximum is
modelled separately on `NpFloat` below. -/
def cmNormalized {m n : ℕ} (cost_mat : Mat (m + 1) (n + 1)) : Mat (m + 1) (n + 1) :=
  Matrix.of fun i j => cost_mat i j / matMax cost_mat

/-- The shared `while (err > tol and cpt < max_iter)` scaffold of the three
drivers (GW_adjusted.py lines 332-357, 441-465, 543-566), with `fuel`
maintained as `max_iter - cpt` so the fuel reaches `0` exactly when
`cpt = max_iter`.  `body T` produces the cost tensor handed to the entropic
solver for the current coupling `T`; `body T = none` models an iteration in
which the dispatch on `loss_fun` matched no branch, leaving the Python local
`tens` unbound, so that its first use raises (UnboundLocalError), embedded as
`Except.error ()`.  Every 10th iteration (`cpt % 10 == 0`) the convergence
error `nrm (T - Tprev)` is recomputed and, when logging is on, appended.
The returned triple also exposes the final iteration counter `cpt`, which the
Python code keeps internal. -/
def gwLoop {ns nt : ℕ} (sink : Sink ns nt) (nrm : Mat (ns + 1) (nt + 1) → ℚ)
    (p : Fin (ns + 1) → ℚ) (q : Fin (nt + 1) → ℚ) (epsilon tol : ℚ) (logOn : Bool)
    (body : Mat (ns + 1) (nt + 1) → Option (Mat (ns + 1) (nt + 1))) :
    ℕ → ℕ → Mat (ns + 1) (nt + 1) → ℚ → List ℚ →
    Except Unit (Mat (ns + 1) (nt + 1) × List ℚ × ℕ)
  | 0, cpt, T, _, lg => Except.ok (T, lg, cpt)
  | fuel + 1, cpt, T, err, lg =>
    if tol < err then
      match body T with
      | none => Except.error ()
      | some tens =>
        let T' := sink p q tens epsilon
        let err' := if cpt % 10 = 0 then nrm (T' - T) else err
        let lg' := if cpt % 10 = 0 ∧ logOn then lg ++ [nrm (T' - T)] else lg
        gwLoop sink nrm p q epsilon tol logOn body fuel (cpt + 1) T' err' lg'
    else
      Except.ok (T, lg, cpt)

/-- `gromov_wasserstein_adjusted` (GW_adjusted.py lines 262-362): initialize
`T = np.outer(p, q)`, `cpt = 0`, `err = 1`, normalize `cost_mat` once by its
own maximum, then iterate: build the square-loss tensor when
`loss_fun == 'square_loss'` (no other value builds a tensor), add the
rescaled linear cost, and solve the entropic subproblem. -/
def gromov_wasserstein_adjusted {ns nt : ℕ} (sink : Sink ns nt)
    (nrm : Mat (ns + 1) (nt + 1) → ℚ) (cost_mat : Mat (ns + 1) (nt + 1))
    (C1 : Mat (ns + 1) (ns + 1)) (C2 : Mat (nt + 1) (nt + 1)) (alpha_linear : ℚ)
    (p : Fin (ns + 1) → ℚ) (q : Fin (nt + 1) → ℚ) (loss_fun : String) (epsilon : ℚ)
    (max_iter : ℕ) (tol : ℚ) (logOn : Bool) :
    Except Unit (Mat (ns + 1) (nt + 1) × List ℚ × ℕ) :=
  let T := npOuter p q
  let cost_mat1 := cmNormalized cost_mat
  gwLoop sink nrm p q epsilon tol logOn
    (fun T =>
      if loss_fun = "square_loss" then
        some (adjustedTens cost_mat1 alpha_linear (tensor_square_loss_mine C1 C2 T))
      else none)
    max_iter 0 T 1 []

/-- `gromov_wasserstein_adjusted_norm` (GW_adjusted.py lines 365-470): same
setup; `cost_mat_norm` is the guarded normalization (its `try` never raises
for a nonempty matrix, see `cost_mat_norm_guarded` below, so over `ℚ` it is
`cmNormalized`).  If `alpha_linear == 1` the entropic subproblem is solved
directly on `cost_mat_norm` and no loop runs; otherwise each iteration blends
`tens_all = (1 - alpha_linear) * tens + alpha_linear * cost_mat_norm`. -/
def gromov_wasserstein_adjusted_norm {ns nt : ℕ} (sink : Sink ns nt)
    (nrm : Mat (ns + 1) (nt + 1) → ℚ) (cost_mat : Mat (ns + 1) (nt + 1))
    (C1 : Mat (ns + 1) (ns + 1)) (C2 : Mat (nt + 1) (nt + 1)) (alpha_linear : ℚ)
    (p : Fin (ns + 1) → ℚ) (q : Fin (nt + 1) → ℚ) (loss_fun : String) (epsilon : ℚ)
    (max_iter : ℕ) (tol : ℚ) (logOn : Bool) :
    Except Unit (Mat (ns + 1) (nt + 1) × List ℚ × ℕ) :=
  let T := npOuter p q
  let cost_mat_norm := cmNormalized cost_mat
  if alpha_linear = 1 then
    Except.ok (sink p q cost_mat_norm epsilon, [], 0)
  else
    gwLoop sink nrm p q epsilon tol logOn
      (fun T =>
        if loss_fun = "square_loss" then
          some (Matrix.of fun i j =>
            (1 - alpha_linear) * tensor_square_loss_mine C1 C2 T i j
              + alpha_linear * cost_mat_norm i j)
        else none)
      max_iter 0 T 1 []

/-- `gromov_wasserstein_adjusted_combined` (GW_adjusted.py lines 473-571):
same scaffold; `cost_mat1 = cost_mat / cost_mat.max()` is computed at entry
(line 541) but never read afterwards, and each iteration builds the combined
tensor from the raw `cost_mat`. -/
def gromov_wasserstein_adjusted_combined {ns nt : ℕ} (sink : Sink ns nt)
    (nrm : Mat (ns + 1) (nt + 1) → ℚ) (cost_mat : Mat (ns + 1) (nt + 1))
    (C1 : Mat (ns + 1) (ns + 1)) (C2 : Mat (nt + 1) (nt + 1)) (alpha_linear : ℚ)
    (p : Fin (ns + 1) → ℚ) (q : Fin (nt + 1) → ℚ) (loss_fun : String) (epsilon : ℚ)
    (max_iter : ℕ) (tol : ℚ) (logOn : Bool) :
    Except Unit (Mat (ns + 1) (nt + 1) × List ℚ × ℕ) :=
  let T := npOuter p q
  let cost_mat1 := cmNormalized cost_mat
  gwLoop sink nrm p q epsilon tol logOn
    (fun T =>
      if loss_fun = "square_loss" then
        some (tensor_square_loss_mine_combined C1 C2 T cost_mat alpha_linear)
      else none)
    max_iter 0 T 1 []

/-- Modelled from the spec: `gromov_wasserstein_adjusted_combined` with the
dead normalization assignment (`cost_mat1 = cost_mat / cost_mat.max()`,
line 541) removed, the comparison point of the refinement claim about the
combined driver. -/
def gromov_wasserstein_adjusted_combined_nonorm {ns nt : ℕ} (sink : Sink ns nt)
    (nrm : Mat (ns + 1) (nt + 1) → ℚ) (cost_mat : Mat (ns + 1) (nt + 1))
    (C1 : Mat (ns + 1) (ns + 1)) (C2 : Mat (nt + 1) (nt + 1)) (alpha_linear : ℚ)
    (p : Fin (ns + 1) → ℚ) (q : Fin (nt + 1) → ℚ) (loss_fun : String) (epsilon : ℚ)
    (max_iter : ℕ) (tol : ℚ) (logOn : Bool) :
    Except Unit (Mat (ns + 1) (nt + 1) × List ℚ × ℕ) :=
  let T := npOuter p q
  gwLoop sink nrm p q epsilon tol logOn
    (fun T =>
      if loss_fun = "square_loss" then
        some (tensor_square_loss_mine_combined C1 C2 T cost_mat alpha_linear)
      else none)
    max_iter 0 T 1 []

/-- A numpy float as far as the degenerate normalization is concerned: an
exact rational, or one of the special values `nan`, `inf`, `-inf` that numpy
produces instead of raising when an arithmetic operation leaves the finite
range under its default error state (divide='warn', invalid='warn': a
RuntimeWarning is printed, no exception is thrown). -/
inductive NpFloat : Type where
  | fin : ℚ → NpFloat
  | nan : NpFloat
  | inf : NpFloat
  | ninf : NpFloat
deriving DecidableEq

/-- Elementwise numpy division: dividing by zero yields `inf`/`-inf`/`nan`
(never an exception); `nan` is absorbing. -/
def npDiv : NpFloat → NpFloat → NpFloat
  | NpFloat.nan, _ => NpFloat.nan
  | _, NpFloat.nan => NpFloat.nan
  | NpFloat.fin a, NpFloat.fin b =>
    if b = 0 then
      if a = 0 then NpFloat.nan else if 0 < a then NpFloat.inf else NpFloat.ninf
    else NpFloat.fin (a / b)
  | NpFloat.fin _, NpFloat.inf => NpFloat.fin 0
  | NpFloat.fin _, NpFloat.ninf => NpFloat.fin 0
  | NpFloat.inf, NpFloat.fin b => if 0 ≤ b then NpFloat.inf else NpFloat.ninf
  | NpFloat.ninf, NpFloat.fin b => if 0 ≤ b then NpFloat.ninf else NpFloat.inf
  | NpFloat.inf, NpFloat.inf => NpFloat.nan
  | NpFloat.inf, NpFloat.ninf => NpFloat.nan
  | NpFloat.ninf, NpFloat.inf => NpFloat.nan
  | NpFloat.ninf, NpFloat.ninf => NpFloat.nan

/-- Binary maximum with numpy's `ndarray.max` nan-propagation. -/
def npMax2 : NpFloat → NpFloat → NpFloat
  | NpFloat.nan, _ => NpFloat.nan
  | _, NpFloat.nan => NpFloat.nan
  | NpFloat.inf, _ => NpFloat.inf
  | _, NpFloat.inf => NpFloat.inf
  | NpFloat.ninf, x => x
  | x, NpFloat.ninf => x
  | NpFloat.fin a, NpFloat.fin b => NpFloat.fin (max a b)

/-- `A.max()` over a nonempty `NpFloat` matrix; total because the matrix is
nonempty (`ndarray.max` raises only on an empty array). -/
def npMatMax {m n : ℕ} (A : Matrix (Fin (m + 1)) (Fin (n + 1)) NpFloat) : NpFloat :=
  (List.finRange (m + 1)).foldl
    (fun acc i => (List.finRange (n + 1)).foldl (fun acc2 j => npMax2 acc2 (A i j)) acc)
    (A 0 0)

/-- The guarded normalization of `gromov_wasserstein_adjusted_norm`
(GW_adjusted.py lines 433-436):

    try:    cost_mat_norm = cost_mat / cost_mat.max()
    except: cost_mat_norm = cost_mat

For a nonempty `cost_mat`, `max()` succeeds and numpy elementwise division
never raises under the default error state (a zero divisor silently yields
`inf`/`nan`), so the `try` body always succeeds and the `except` arm is dead:
it could only fire when the normalization itself raises, e.g. `max()` of an
empty array. -/
def cost_mat_norm_guarded {m n : ℕ} (A : Matrix (Fin (m + 1)) (Fin (n + 1)) NpFloat) :
    Matrix (Fin (m + 1)) (Fin (n + 1)) NpFloat :=
  match (Except.ok (Matrix.of fun i j => npDiv (A i j) (npMatMax A)) :
      Except Unit (Matrix (Fin (m + 1)) (Fin (n + 1)) NpFloat)) with
  | Except.ok M => M
  | Except.error _ => A

/-- A concrete stand-in for `np.log` defined on all positive rationals, used
to instantiate the abstract logarithm in witnesses. -/
def nplogTest : ℚ → Option ℚ := fun x => if 0 < x then some x else none

theorem matMin_le {m n : ℕ} (A : Mat (m + 1) (n + 1)) (i : Fin (m + 1)) (j : Fin (n + 1)) :
    matMin A ≤ A i j :=
  Finset.inf'_le _ (Finset.mem_univ (i, j))

theorem exists_matMin_eq {m n : ℕ} (A : Mat (m + 1) (n + 1)) :
    ∃ i j, matMin A = A i j := by
  obtain ⟨ij, -, hij⟩ :=
    Finset.exists_mem_eq_inf' (Finset.univ_nonempty)
      (fun ij : Fin (m + 1) × Fin (n + 1) => A ij.1 ij.2)
  exact ⟨ij.1, ij.2, hij⟩

theorem matMin_shift {m n : ℕ} (B : Mat (m + 1) (n + 1)) :
    matMin (Matrix.of fun i j => B i j - matMin B) = 0 := by
  apply le_antisymm
  · obtain ⟨i, j, hij⟩ := exists_matMin_eq B
    have h := matMin_le (Matrix.of fun i j => B i j - matMin B) i j
    simpa [Matrix.of_apply, ← hij] using h
  · apply Finset.le_inf'
    rintro ⟨i, j⟩ -
    simpa [Matrix.of_apply] using matMin_le B i j

/-- Claim C1: for every `C1` (ns by ns), `C2` (nt by nt) and coupling `T`
(ns by nt) with ns, nt at least 1 (encoded by the index types),
`tensor_square_loss_mine` returns `-(C1 @ T) @ C2.T` shifted by subtracting
the tensor's global minimum, so every entry of the returned tensor is
nonnegative and its minimum is exactly 0. -/
theorem tensor_square_loss_mine_spec {ns nt : ℕ} (C1 : Mat (ns + 1) (ns + 1))
    (C2 : Mat (nt + 1) (nt + 1)) (T : Mat (ns + 1) (nt + 1)) :
    (∀ i j, tensor_square_loss_mine C1 C2 T i j
        = (-(C1 * T * C2.transpose)) i j - matMin (-(C1 * T * C2.transpose)))
      ∧ (∀ i j, 0 ≤ tensor_square_loss_mine C1 C2 T i j)
      ∧ matMin (tensor_square_loss_mine C1 C2 T) = 0 := by
  refine ⟨fun i j => rfl, fun i j => ?_, ?_⟩
  · have h := matMin_le (-(C1 * T * C2.transpose)) i j
    simp only [tensor_square_loss_mine, Matrix.of_apply]
    linarith
  · exact matMin_shift (-(C1 * T * C2.transpose))

/-- Claim C2: called with `alpha_linear == 1`, the normalized-blend driver
returns exactly the entropic subproblem solver's output
`sinkhorn(p, q, cost_mat_norm, epsilon)` on the normalized linear cost; the
result makes no reference to `gwLoop` or to any loss-tensor builder, so no GW
loss tensor is built and the fixed-point loop is never entered (this holds for
every `loss_fun`, every `max_iter` and every `tol`). -/
theorem gw_norm_alpha_one_shortcut {ns nt : ℕ} (sink : Sink ns nt)
    (nrm : Mat (ns + 1) (nt + 1) → ℚ) (cost_mat : Mat (ns + 1) (nt + 1))
    (C1 : Mat (ns + 1) (ns + 1)) (C2 : Mat (nt + 1) (nt + 1))
    (p : Fin (ns + 1) → ℚ) (q : Fin (nt + 1) → ℚ) (loss_fun : String) (epsilon : ℚ)
    (max_iter : ℕ) (tol : ℚ) (logOn : Bool) :
    gromov_wasserstein_adjusted_norm sink nrm cost_mat C1 C2 1 p q loss_fun epsilon
        max_iter tol logOn
      = Except.ok (sink p q (cmNormalized cost_mat) epsilon, [], 0) := by
  simp [gromov_wasserstein_adjusted_norm]

/-- Claim C5: in `gromov_wasserstein_adjusted` the cost tensor passed to the
entropic solver in each iteration equals the square-loss tensor plus
`alpha_linear * (cost_mat / cost_mat.max()) * tens.max()`: the driver equals
the loop whose body hands the solver exactly that matrix. -/
theorem gw_adjusted_cost_tensor_formula {ns nt : ℕ} (sink : Sink ns nt)
    (nrm : Mat (ns + 1) (nt + 1) → ℚ) (cost_mat : Mat (ns + 1) (nt + 1))
    (C1 : Mat (ns + 1) (ns + 1)) (C2 : Mat (nt + 1) (nt + 1)) (alpha_linear : ℚ)
    (p : Fin (ns + 1) → ℚ) (q : Fin (nt + 1) → ℚ) (epsilon : ℚ)
    (max_iter : ℕ) (tol : ℚ) (logOn : Bool) :
    gromov_wasserstein_adjusted sink nrm cost_mat C1 C2 alpha_linear p q
        "square_loss" epsilon max_iter tol logOn
      = gwLoop sink nrm p q epsilon tol logOn
          (fun T => some (Matrix.of fun i j =>
            tensor_square_loss_mine C1 C2 T i j
              + alpha_linear * (cost_mat i j / matMax cost_mat)
                  * matMax (tensor_square_loss_mine C1 C2 T)))
          max_iter 0 (npOuter p q) 1 [] := by
  have hbody : (fun T =>
        if "square_loss" = "square_loss" then
          some (adjustedTens (cmNormalized cost_mat) alpha_linear
            (tensor_square_loss_mine C1 C2 T))
        else none)
      = (fun T : Mat (ns + 1) (nt + 1) => some (Matrix.of fun i j =>
          tensor_square_loss_mine C1 C2 T i j
            + alpha_linear * (cost_mat i j / matMax cost_mat)
                * matMax (tensor_square_loss_mine C1 C2 T))) := by
    funext T
    simp only [reduceIte]
    congr 1
    funext i j
    simp only [adjustedTens, cmNormalized, Matrix.of_apply]
    ring
  show gwLoop sink nrm p q epsilon tol logOn
      (fun T =>
        if "square_loss" = "square_loss" then
          some (adjustedTens (cmNormalized cost_mat) alpha_linear
            (tensor_square_loss_mine C1 C2 T))
        else none)
      max_iter 0 (npOuter p q) 1 [] = _
  rw [hbody]

/-- Claim C8: for every `p`, `lambdas`, couplings `T` and cost matrices `Cs`,
`update_kl_loss_mine` equals the elementwise exponential of
`update_square_loss_mine`: both form the numerator
`sum_s lambdas[s] * T[s].T @ Cs[s] @ T[s]` divided elementwise by
`np.outer(p, p)`, and the KL variant applies `np.exp` (any elementwise
`npexp`) to that quotient. -/
theorem update_kl_loss_mine_eq_exp_update_square {S N : ℕ} (npexp : ℚ → ℚ)
    (sz : Fin S → ℕ) (p : Fin N → ℚ) (lambdas : Fin S → ℚ)
    (T : ∀ s, Matrix (Fin (sz s)) (Fin N) ℚ)
    (Cs : ∀ s, Matrix (Fin (sz s)) (Fin (sz s)) ℚ) :
    update_kl_loss_mine npexp sz p lambdas T Cs
        = Matrix.of (fun i j => npexp (update_square_loss_mine sz p lambdas T Cs i j))
      ∧ ∀ i j, update_square_loss_mine sz p lambdas T Cs i j
          = (∑ s, lambdas s • ((T s).transpose * Cs s * T s)) i j / (p i * p j) :=
  ⟨rfl, fun _ _ => rfl⟩

/-- Claim C10: `gromov_wasserstein_adjusted_combined` computes the normalized
matrix `cost_mat1 = cost_mat / cost_mat.max()` at entry but never reads it
(the combined tensor builder receives the raw `cost_mat`), so for every input
it returns exactly what the same driver with the normalization assignment
removed returns. -/
theorem gw_combined_norm_dead_code {ns nt : ℕ} (sink : Sink ns nt)
    (nrm : Mat (ns + 1) (nt + 1) → ℚ) (cost_mat : Mat (ns + 1) (nt + 1))
    (C1 : Mat (ns + 1) (ns + 1)) (C2 : Mat (nt + 1) (nt + 1)) (alpha_linear : ℚ)
    (p : Fin (ns + 1) → ℚ) (q : Fin (nt + 1) → ℚ) (loss_fun : String) (epsilon : ℚ)
    (max_iter : ℕ) (tol : ℚ) (logOn : Bool) :
    gromov_wasserstein_adjusted_combined sink nrm cost_mat C1 C2 alpha_linear p q
        loss_fun epsilon max_iter tol logOn
      = gromov_wasserstein_adjusted_combined_nonorm sink nrm cost_mat C1 C2
          alpha_linear p q loss_fun epsilon max_iter tol logOn :=
  rfl

theorem gwLoop_ok_of_body_total {ns nt : ℕ} (sink : Sink ns nt)
    (nrm : Mat (ns + 1) (nt + 1) → ℚ) (p : Fin (ns + 1) → ℚ) (q : Fin (nt + 1) → ℚ)
    (epsilon tol : ℚ) (logOn : Bool)
    (body : Mat (ns + 1) (nt + 1) → Option (Mat (ns + 1) (nt + 1)))
    (hb : ∀ T, (body T).isSome) :
    ∀ (fuel cpt : ℕ) (T : Mat (ns + 1) (nt + 1)) (err : ℚ) (lg : List ℚ),
      ∃ r, gwLoop sink nrm p q epsilon tol logOn body fuel cpt T err lg = Except.ok r
        ∧ r.2.2 ≤ cpt + fuel := by
  intro fuel
  induction fuel with
  | zero =>
    intro cpt T err lg
    exact ⟨(T, lg, cpt), rfl, Nat.le_refl cpt⟩
  | succ n ih =>
    intro cpt T err lg
    by_cases h : tol < err
    · obtain ⟨M, hM⟩ := Option.isSome_iff_exists.mp (hb T)
      obtain ⟨r, hr, hle⟩ := ih (cpt + 1) (sink p q M epsilon)
        (if cpt % 10 = 0 then nrm (sink p q M epsilon - T) else err)
        (if cpt % 10 = 0 ∧ logOn then lg ++ [nrm (sink p q M epsilon - T)] else lg)
      refine ⟨r, ?_, by omega⟩
      simp only [gwLoop, if_pos h, hM]
      exact hr
    · exact ⟨(T, lg, cpt), by simp [gwLoop, h], Nat.le_add_right cpt (n + 1)⟩

theorem gwLoop_error_step {ns nt : ℕ} (sink : Sink ns nt)
    (nrm : Mat (ns + 1) (nt + 1) → ℚ) (p : Fin (ns + 1) → ℚ) (q : Fin (nt + 1) → ℚ)
    (epsilon tol : ℚ) (logOn : Bool)
    (body : Mat (ns + 1) (nt + 1) → Option (Mat (ns + 1) (nt + 1)))
    (fuel cpt : ℕ) (T : Mat (ns + 1) (nt + 1)) (err : ℚ) (lg : List ℚ)
    (htol : tol < err) (hb : body T = none) :
    gwLoop sink nrm p q epsilon tol logOn body (fuel + 1) cpt T err lg
      = Except.error () := by
  simp [gwLoop, htol, hb]

theorem gwLoop_log_len {ns nt : ℕ} (sink : Sink ns nt)
    (nrm : Mat (ns + 1) (nt + 1) → ℚ) (p : Fin (ns + 1) → ℚ) (q : Fin (nt + 1) → ℚ)
    (epsilon tol : ℚ) (logOn : Bool)
    (body : Mat (ns + 1) (nt + 1) → Option (Mat (ns + 1) (nt + 1))) :
    ∀ (fuel cpt : ℕ) (T : Mat (ns + 1) (nt + 1)) (err : ℚ) (lg : List ℚ) r,
      gwLoop sink nrm p q epsilon tol logOn body fuel cpt T err lg = Except.ok r →
      r.2.1.length ≤ lg.length + (fuel + 9 - (10 - cpt % 10) % 10) / 10 := by
  intro fuel
  induction fuel with
  | zero =>
    intro cpt T err lg r h
    obtain rfl : (T, lg, cpt) = r := by simpa [gwLoop] using h
    simp
  | succ n ih =>
    intro cpt T err lg r h
    by_cases htol : tol < err
    · cases hbT : body T with
      | none => simp [gwLoop, htol, hbT] at h
      | some M =>
        simp only [gwLoop, if_pos htol, hbT] at h
        have hrec := ih (cpt + 1) (sink p q M epsilon)
          (if cpt % 10 = 0 then nrm (sink p q M epsilon - T) else err)
          (if cpt % 10 = 0 ∧ logOn then lg ++ [nrm (sink p q M epsilon - T)] else lg)
          r h
        by_cases hc : cpt % 10 = 0
        · have hlen :
              (if cpt % 10 = 0 ∧ logOn then lg ++ [nrm (sink p q M epsilon - T)] else lg).length
                ≤ lg.length + 1 := by
            split <;> simp
          omega
        · have hlen :
              (if cpt % 10 = 0 ∧ logOn then lg ++ [nrm (sink p q M epsilon - T)] else lg).length
                = lg.length := by
            simp [hc]
          omega
    · obtain rfl : (T, lg, cpt) = r := by simpa [gwLoop, htol] using h
      simp

/-- Claim C3: every driver call with `max_iter` at least 1 (and the wired
loss function `'square_loss'`) terminates: the loop runs only while
`err > tol` and the counter is below `max_iter`, so the final counter is at
most `max_iter`, and exhausting `max_iter` is not a failure — the last
coupling comes back as `Except.ok` through the same return shape as a
converged run, for all three driver variants. -/
theorem gw_drivers_terminate {ns nt : ℕ} (sink : Sink ns nt)
    (nrm : Mat (ns + 1) (nt + 1) → ℚ) (cost_mat : Mat (ns + 1) (nt + 1))
    (C1 : Mat (ns + 1) (ns + 1)) (C2 : Mat (nt + 1) (nt + 1)) (alpha_linear : ℚ)
    (p : Fin (ns + 1) → ℚ) (q : Fin (nt + 1) → ℚ) (epsilon : ℚ)
    (max_iter : ℕ) (tol : ℚ) (logOn : Bool) (hmi : 1 ≤ max_iter) :
    (∃ r, gromov_wasserstein_adjusted sink nrm cost_mat C1 C2 alpha_linear p q
        "square_loss" epsilon max_iter tol logOn = Except.ok r ∧ r.2.2 ≤ max_iter)
      ∧ (∃ r, gromov_wasserstein_adjusted_norm sink nrm cost_mat C1 C2 alpha_linear p q
          "square_loss" epsilon max_iter tol logOn = Except.ok r ∧ r.2.2 ≤ max_iter)
      ∧ (∃ r, gromov_wasserstein_adjusted_combined sink nrm cost_mat C1 C2 alpha_linear p q
          "square_loss" epsilon max_iter tol logOn = Except.ok r ∧ r.2.2 ≤ max_iter) := by
  refine ⟨?_, ?_, ?_⟩
  · obtain ⟨r, hr, hle⟩ := gwLoop_ok_of_body_total sink nrm p q epsilon tol logOn
      (fun T => if "square_loss" = "square_loss" then
        some (adjustedTens (cmNormalized cost_mat) alpha_linear
          (tensor_square_loss_mine C1 C2 T)) else none)
      (by intro T; simp) max_iter 0 (npOuter p q) 1 []
    exact ⟨r, hr, by omega⟩
  · by_cases hα : alpha_linear = 1
    · subst hα
      exact ⟨(sink p q (cmNormalized cost_mat) epsilon, [], 0),
        by simp [gromov_wasserstein_adjusted_norm], Nat.zero_le _⟩
    · obtain ⟨r, hr, hle⟩ := gwLoop_ok_of_body_total sink nrm p q epsilon tol logOn
        (fun T => if "square_loss" = "square_loss" then
          some (Matrix.of fun i j =>
            (1 - alpha_linear) * tensor_square_loss_mine C1 C2 T i j
              + alpha_linear * cmNormalized cost_mat i j) else none)
        (by intro T; simp) max_iter 0 (npOuter p q) 1 []
      refine ⟨r, ?_, by omega⟩
      simp only [gromov_wasserstein_adjusted_norm, if_neg hα]
      exact hr
  · obtain ⟨r, hr, hle⟩ := gwLoop_ok_of_body_total sink nrm p q epsilon tol logOn
      (fun T => if "square_loss" = "square_loss" then
        some (tensor_square_loss_mine_combined C1 C2 T cost_mat alpha_linear) else none)
      (by intro T; simp) max_iter 0 (npOuter p q) 1 []
    exact ⟨r, hr, by omega⟩

theorem gw_drivers_terminate_witness :
    1 ≤ 1
      ∧ ((∃ r, gromov_wasserstein_adjusted (fun _ _ M _ => M) (fun _ => (0 : ℚ))
            (0 : Mat 1 1) 0 0 0 (fun _ => 0) (fun _ => 0) "square_loss" 0 1 0 false
            = Except.ok r ∧ r.2.2 ≤ 1)
        ∧ (∃ r, gromov_wasserstein_adjusted_norm (fun _ _ M _ => M) (fun _ => (0 : ℚ))
            (0 : Mat 1 1) 0 0 0 (fun _ => 0) (fun _ => 0) "square_loss" 0 1 0 false
            = Except.ok r ∧ r.2.2 ≤ 1)
        ∧ (∃ r, gromov_wasserstein_adjusted_combined (fun _ _ M _ => M) (fun _ => (0 : ℚ))
            (0 : Mat 1 1) 0 0 0 (fun _ => 0) (fun _ => 0) "square_loss" 0 1 0 false
            = Except.ok r ∧ r.2.2 ≤ 1)) :=
  ⟨Nat.le_refl 1,
    gw_drivers_terminate (fun _ _ M _ => M) (fun _ => (0 : ℚ)) (0 : Mat 1 1) 0 0 0
      (fun _ => 0) (fun _ => 0) 0 1 0 false (Nat.le_refl 1)⟩

/-- Claim C4: whenever the loop body executes (initial `err = 1` exceeds
`tol` and `max_iter` is at least 1, with `alpha_linear` distinct from 1 so the
normalized-blend shortcut does not fire) with a `loss_fun` other than
`'square_loss'` — including the documented value `'kl_loss'` — no loss tensor
is built and the first use of the unset local `tens` raises an
undefined-value fault, in all three driver variants; in particular
`tensor_kl_loss_mine` is never dispatched by any of them. -/
theorem gw_drivers_unset_tensor_fault {ns nt : ℕ} (sink : Sink ns nt)
    (nrm : Mat (ns + 1) (nt + 1) → ℚ) (cost_mat : Mat (ns + 1) (nt + 1))
    (C1 : Mat (ns + 1) (ns + 1)) (C2 : Mat (nt + 1) (nt + 1)) (alpha_linear : ℚ)
    (p : Fin (ns + 1) → ℚ) (q : Fin (nt + 1) → ℚ) (loss_fun : String) (epsilon : ℚ)
    (max_iter : ℕ) (tol : ℚ) (logOn : Bool)
    (hlf : loss_fun ≠ "square_loss") (htol : tol < 1) (hmi : 1 ≤ max_iter)
    (hα : alpha_linear ≠ 1) :
    gromov_wasserstein_adjusted sink nrm cost_mat C1 C2 alpha_linear p q loss_fun
        epsilon max_iter tol logOn = Except.error ()
      ∧ gromov_wasserstein_adjusted_norm sink nrm cost_mat C1 C2 alpha_linear p q loss_fun
          epsilon max_iter tol logOn = Except.error ()
      ∧ gromov_wasserstein_adjusted_combined sink nrm cost_mat C1 C2 alpha_linear p q loss_fun
          epsilon max_iter tol logOn = Except.error () := by
  obtain ⟨k, rfl⟩ : ∃ k, max_iter = k + 1 := ⟨max_iter - 1, by omega⟩
  refine ⟨?_, ?_, ?_⟩
  · exact gwLoop_error_step sink nrm p q epsilon tol logOn
      (fun T => if loss_fun = "square_loss" then
        some (adjustedTens (cmNormalized cost_mat) alpha_linear
          (tensor_square_loss_mine C1 C2 T)) else none)
      k 0 (npOuter p q) 1 [] htol (by simp [hlf])
  · simp only [gromov_wasserstein_adjusted_norm, if_neg hα]
    exact gwLoop_error_step sink nrm p q epsilon tol logOn _ k 0 (npOuter p q) 1 []
      htol (by simp [hlf])
  · exact gwLoop_error_step sink nrm p q epsilon tol logOn
      (fun T => if loss_fun = "square_loss" then
        some (tensor_square_loss_mine_combined C1 C2 T cost_mat alpha_linear) else none)
      k 0 (npOuter p q) 1 [] htol (by simp [hlf])

theorem gw_drivers_unset_tensor_fault_witness :
    ("kl_loss" ≠ "square_loss") ∧ ((0 : ℚ) < 1) ∧ (1 ≤ 1) ∧ ((0 : ℚ) ≠ 1)
      ∧ (gromov_wasserstein_adjusted (fun _ _ M _ => M) (fun _ => (0 : ℚ))
            (0 : Mat 1 1) 0 0 0 (fun _ => 0) (fun _ => 0) "kl_loss" 0 1 0 false
            = Except.error ()
          ∧ gromov_wasserstein_adjusted_norm (fun _ _ M _ => M) (fun _ => (0 : ℚ))
              (0 : Mat 1 1) 0 0 0 (fun _ => 0) (fun _ => 0) "kl_loss" 0 1 0 false
              = Except.error ()
          ∧ gromov_wasserstein_adjusted_combined (fun _ _ M _ => M) (fun _ => (0 : ℚ))
              (0 : Mat 1 1) 0 0 0 (fun _ => 0) (fun _ => 0) "kl_loss" 0 1 0 false
              = Except.error ()) :=
  ⟨by decide, by norm_num, Nat.le_refl 1, by norm_num,
    gw_drivers_unset_tensor_fault (fun _ _ M _ => M) (fun _ => (0 : ℚ)) (0 : Mat 1 1)
      0 0 0 (fun _ => 0) (fun _ => 0) "kl_loss" 0 1 0 false (by decide) (by norm_num)
      (Nat.le_refl 1) (by norm_num)⟩

/-- Claim C9: in every driver variant the convergence error is recomputed and
appended to the log only on iterations whose counter is divisible by 10, so
for any `max_iter` (and any `loss_fun`) the `err` sequence of a successful
run holds at most `max_iter / 10 + 1` entries. -/
theorem gw_log_err_length_bound {ns nt : ℕ} (sink : Sink ns nt)
    (nrm : Mat (ns + 1) (nt + 1) → ℚ) (cost_mat : Mat (ns + 1) (nt + 1))
    (C1 : Mat (ns + 1) (ns + 1)) (C2 : Mat (nt + 1) (nt + 1)) (alpha_linear : ℚ)
    (p : Fin (ns + 1) → ℚ) (q : Fin (nt + 1) → ℚ) (loss_fun : String) (epsilon : ℚ)
    (max_iter : ℕ) (tol : ℚ) (logOn : Bool) :
    (∀ r, gromov_wasserstein_adjusted sink nrm cost_mat C1 C2 alpha_linear p q loss_fun
        epsilon max_iter tol logOn = Except.ok r → r.2.1.length ≤ max_iter / 10 + 1)
      ∧ (∀ r, gromov_wasserstein_adjusted_norm sink nrm cost_mat C1 C2 alpha_linear p q
          loss_fun epsilon max_iter tol logOn = Except.ok r →
          r.2.1.length ≤ max_iter / 10 + 1)
      ∧ (∀ r, gromov_wasserstein_adjusted_combined sink nrm cost_mat C1 C2 alpha_linear p q
          loss_fun epsilon max_iter tol logOn = Except.ok r →
          r.2.1.length ≤ max_iter / 10 + 1) := by
  refine ⟨?_, ?_, ?_⟩
  · intro r h
    have hb := gwLoop_log_len sink nrm p q epsilon tol logOn
      (fun T => if loss_fun = "square_loss" then
        some (adjustedTens (cmNormalized cost_mat) alpha_linear
          (tensor_square_loss_mine C1 C2 T)) else none)
      max_iter 0 (npOuter p q) 1 [] r h
    simp only [List.length_nil] at hb
    omega
  · intro r h
    by_cases hα : alpha_linear = 1
    · subst hα
      simp only [gromov_wasserstein_adjusted_norm, if_pos rfl] at h
      obtain rfl : (sink p q (cmNormalized cost_mat) epsilon, ([] : List ℚ), 0) = r := by
        simpa using h
      simp
    · simp only [gromov_wasserstein_adjusted_norm, if_neg hα] at h
      have hb := gwLoop_log_len sink nrm p q epsilon tol logOn
        (fun T => if loss_fun = "square_loss" then
          some (Matrix.of fun i j =>
            (1 - alpha_linear) * tensor_square_loss_mine C1 C2 T i j
              + alpha_linear * cmNormalized cost_mat i j) else none)
        max_iter 0 (npOuter p q) 1 [] r h
      simp only [List.length_nil] at hb
      omega
  · intro r h
    have hb := gwLoop_log_len sink nrm p q epsilon tol logOn
      (fun T => if loss_fun = "square_loss" then
        some (tensor_square_loss_mine_combined C1 C2 T cost_mat alpha_linear) else none)
      max_iter 0 (npOuter p q) 1 [] r h
    simp only [List.length_nil] at hb
    omega

theorem gw_log_err_length_bound_witness :
    gromov_wasserstein_adjusted (fun _ _ _ _ => (0 : Mat 1 1)) (fun _ => (0 : ℚ))
        (0 : Mat 1 1) 0 0 0 (fun _ => 0) (fun _ => 0) "square_loss" 0 1 0 true
        = Except.ok ((0 : Mat 1 1), [(0 : ℚ)], 1)
      ∧ (((0 : Mat 1 1), [(0 : ℚ)], 1) : Mat 1 1 × List ℚ × ℕ).2.1.length ≤ 1 / 10 + 1 :=
  ⟨by rfl,
    (gw_log_err_length_bound (fun _ _ _ _ => (0 : Mat 1 1)) (fun _ => (0 : ℚ))
      (0 : Mat 1 1) 0 0 0 (fun _ => 0) (fun _ => 0) "square_loss" 0 1 0 true).1
      ((0 : Mat 1 1), [(0 : ℚ)], 1) (by rfl)⟩

/-- Claim C7: `tensor_kl_loss_mine` never takes a logarithm of a nonpositive
argument when `C2` is entrywise nonnegative (in particular when it contains
exact zeros): every logarithm it takes is applied to its argument plus the
additive floor `1e-15`, each such application succeeds for any logarithm
defined on the positives, and the result is `-(C1 @ T) @ log(C2 + 1e-15).T`
shifted by its global minimum. -/
theorem tensor_kl_loss_mine_no_domain_fault {ns nt : ℕ} (nplog : ℚ → Option ℚ)
    (hlog : ∀ x : ℚ, 0 < x → (nplog x).isSome)
    (C1 : Mat (ns + 1) (ns + 1)) (C2 : Mat (nt + 1) (nt + 1)) (T : Mat (ns + 1) (nt + 1))
    (hC2 : ∀ i j, 0 ≤ C2 i j) :
    ∃ logC2 : Mat (nt + 1) (nt + 1),
      (∀ i j, nplog (C2 i j + eps15) = some (logC2 i j))
        ∧ tensor_kl_loss_mine nplog C1 C2 T
            = some (Matrix.of fun i j =>
                (-(C1 * T * logC2.transpose)) i j
                  - matMin (-(C1 * T * logC2.transpose))) := by
  have hsome : ∀ i j, (nplog (C2 i j + eps15)).isSome := by
    intro i j
    have h1 := hC2 i j
    have h2 : (0 : ℚ) < eps15 := by norm_num [eps15]
    exact hlog _ (by linarith)
  refine ⟨Matrix.of fun i j => (nplog (C2 i j + eps15)).get (hsome i j), ?_, ?_⟩
  · intro i j
    exact (Option.some_get (hsome i j)).symm
  · simp only [tensor_kl_loss_mine, dif_pos hsome]

theorem tensor_kl_loss_mine_no_domain_fault_witness :
    (∀ x : ℚ, 0 < x → (nplogTest x).isSome)
      ∧ (∀ i j : Fin 1, (0 : ℚ) ≤ (0 : Mat 1 1) i j)
      ∧ ∃ logC2 : Mat 1 1,
          (∀ i j : Fin 1, nplogTest ((0 : Mat 1 1) i j + eps15) = some (logC2 i j))
            ∧ tensor_kl_loss_mine nplogTest (0 : Mat 1 1) (0 : Mat 1 1) (0 : Mat 1 1)
                = some (Matrix.of fun i j =>
                    (-((0 : Mat 1 1) * (0 : Mat 1 1) * logC2.transpose)) i j
                      - matMin (-((0 : Mat 1 1) * (0 : Mat 1 1) * logC2.transpose))) :=
  ⟨fun x hx => by simp [nplogTest, hx], by decide,
    tensor_kl_loss_mine_no_domain_fault nplogTest
      (fun x hx => by simp [nplogTest, hx]) (0 : Mat 1 1) (0 : Mat 1 1) (0 : Mat 1 1)
      (by decide)⟩

/-- Claim C6 (counterexample): on the 1-by-1 zero cost matrix — whose maximum
is zero, the degenerate case named by the claim — the guarded normalization of
`gromov_wasserstein_adjusted_norm` does not recover to the raw unnormalized
`cost_mat`: numpy division by the zero maximum raises nothing (the try
succeeds), so the entry becomes `nan` instead of the raw `0`, and the same
division expression used unguarded by the other two variants also yields
`nan` silently instead of a loud fault. -/
theorem gw_norm_degenerate_no_fallback_cex :
    cost_mat_norm_guarded (Matrix.of fun _ _ => NpFloat.fin 0 :
        Matrix (Fin 1) (Fin 1) NpFloat) 0 0 = NpFloat.nan
      ∧ (Matrix.of fun _ _ => NpFloat.fin 0 : Matrix (Fin 1) (Fin 1) NpFloat) 0 0
          = NpFloat.fin 0
      ∧ cost_mat_norm_guarded (Matrix.of fun _ _ => NpFloat.fin 0 :
          Matrix (Fin 1) (Fin 1) NpFloat)
          ≠ (Matrix.of fun _ _ => NpFloat.fin 0 : Matrix (Fin 1) (Fin 1) NpFloat)
      ∧ npDiv ((Matrix.of fun _ _ => NpFloat.fin 0 : Matrix (Fin 1) (Fin 1) NpFloat) 0 0)
          (npMatMax (Matrix.of fun _ _ => NpFloat.fin 0 : Matrix (Fin 1) (Fin 1) NpFloat))
          = NpFloat.nan := by
  refine ⟨by decide, by decide, ?_, by decide⟩
  intro h
  have h00 := congrFun (congrFun h 0) 0
  revert h00
  decide

/-- Claim C6 (amended): on a nonempty cost matrix the `try` of the guarded
normalization in `gromov_wasserstein_adjusted_norm` always succeeds — a zero
maximum does not raise under numpy's default error state, it silently yields
`nan`/`inf` entries — so the raw-matrix fallback is never used there, and on a
matrix with zero maximum every variant's normalization (guarded or not, the
same elementwise division) silently produces `nan` at each zero entry rather
than faulting; the `except` fallback could only engage when the normalization
itself raises, e.g. `max()` of an empty cost matrix. -/
theorem gw_normalization_guard_semantics {m n : ℕ}
    (A : Matrix (Fin (m + 1)) (Fin (n + 1)) NpFloat) :
    cost_mat_norm_guarded A = Matrix.of (fun i j => npDiv (A i j) (npMatMax A))
      ∧ ∀ i j, npMatMax A = NpFloat.fin 0 → A i j = NpFloat.fin 0 →
          cost_mat_norm_guarded A i j = NpFloat.nan := by
  refine ⟨rfl, ?_⟩
  intro i j hmax hij
  show npDiv (A i j) (npMatMax A) = NpFloat.nan
  rw [hmax, hij]
  decide

theorem gw_normalization_guard_semantics_witness :
    npMatMax (Matrix.of fun _ _ => NpFloat.fin 0 : Matrix (Fin 1) (Fin 1) NpFloat)
        = NpFloat.fin 0
      ∧ (Matrix.of fun _ _ => NpFloat.fin 0 : Matrix (Fin 1) (Fin 1) NpFloat) 0 0
          = NpFloat.fin 0
      ∧ cost_mat_norm_guarded (Matrix.of fun _ _ => NpFloat.fin 0 :
          Matrix (Fin 1) (Fin 1) NpFloat) 0 0 = NpFloat.nan :=
  ⟨by decide, by decide,
    (gw_normalization_guard_semantics
      (Matrix.of fun _ _ => NpFloat.fin 0 : Matrix (Fin 1) (Fin 1) NpFloat)).2
      0 0 (by decide) (by decide)⟩
